import Mathlib

/-!
Shallow embedding of the WebAssembly binary-module encoder from
`src/main.ts`. JavaScript numbers appearing at integer call sites are
modelled as `Int`; JavaScript 32-bit bitwise operations (`|0`, `&`, `>>`)
are modelled explicitly through `toInt32`, Euclidean division and
remainder. JavaScript numbers at the external API boundary (where the
`Number.isInteger` guard can fire on fractional input) are modelled as `ℚ`.
-/

/-- JavaScript `ToInt32`: wrap an integer to the signed 32-bit range,
congruent modulo `2^32`. This is what `n | 0` computes and what the
bitwise operators apply to their operands. -/
def toInt32 (n : Int) : Int :=
  if n % 4294967296 < 2147483648 then n % 4294967296
  else n % 4294967296 - 4294967296

/-- `encodeLEB128U` from `src/main.ts` (the loop body; the
`Number.isInteger` guard, which can only fire on a fractional JavaScript
number, lives in `encodeLEB128Unum`).  The loop runs while `n > 0x7f`;
`n & 0x7f` is `n % 128` of the 32-bit wrap (and `128 ∣ 2^32`, so it is
`n % 128`), `| 0x80` adds `128`, and `n >> 7` is the arithmetic shift of
`ToInt32 n`, i.e. floor division of `toInt32 n` by `128`.  The final
`buffer.push(n)` pushes the raw current value. -/
def encodeLEB128U (n : Int) : List Int :=
  if 127 < n then (n % 128 + 128) :: encodeLEB128U (toInt32 n / 128)
  else [n]
termination_by n.natAbs
decreasing_by
  rename_i h
  simp only [toInt32]
  split <;> omega

/-- Reference unsigned-LEB128 decoder: each byte contributes its low
7 payload bits, low-order group first. -/
def decodeUnsigned : List Int → Int
  | [] => 0
  | b :: rest => b % 128 + 128 * decodeUnsigned rest

/-- Shape predicate for an unsigned-LEB128 byte string: every byte except
the last is a byte with the continuation bit (0x80) set, and the last is a
byte with it clear. -/
def ulebShape : List Int → Bool
  | [] => false
  | [b] => decide (0 ≤ b ∧ b < 128)
  | b :: rest => decide (128 ≤ b ∧ b < 256) && ulebShape rest

/-- `encodeLEB128U` with the JavaScript-number domain: the
`Number.isInteger` guard throws a `RangeError` exactly when the argument
is not an integer; it does not test the sign. -/
def encodeLEB128Unum (q : ℚ) : Except String (List Int) :=
  if q.den = 1 then Except.ok (encodeLEB128U q.num)
  else Except.error ("n must be an integer")

/-- Signed-LEB128 loop of `encodeLEB128S` from `src/main.ts`, operating on
the already-wrapped (`n |= 0`) value.  `byte = n & 0x7f` is `n % 128`,
`n >>= 7` is floor division by 128, `byte & 0x40` tests whether
`n % 128 ≥ 64`, and a non-final byte gets `| 0x80`. -/
def encodeLEB128Sloop (n : Int) : List Int :=
  if (n / 128 = 0 ∧ n % 128 < 64) ∨ (n / 128 = -1 ∧ 64 ≤ n % 128) then
    [n % 128]
  else
    (n % 128 + 128) :: encodeLEB128Sloop (n / 128)
termination_by n.natAbs
decreasing_by
  rename_i h
  omega

/-- `encodeLEB128S` from `src/main.ts`: `n |= 0` wraps the argument to
signed 32 bits, then the loop emits 7-bit groups. -/
def encodeLEB128S (n : Int) : List Int :=
  encodeLEB128Sloop (toInt32 n)

/-- `encodeLEB128S` with the JavaScript-number domain, including the
`Number.isInteger` guard. -/
def encodeLEB128Snum (q : ℚ) : Except String (List Int) :=
  if q.den = 1 then Except.ok (encodeLEB128S q.num)
  else Except.error ("n must be an integer")

/-- Reference signed-LEB128 decoder: low-order 7-bit groups first; the
final byte's bit 6 is the sign bit and is extended. -/
def decodeSigned : List Int → Int
  | [] => 0
  | [b] => if 64 ≤ b then b - 128 else b
  | b :: rest => (b - 128) + 128 * decodeSigned rest

/-- `encodeVector` from `src/main.ts`: length prefix, then each element's
encoding in order. -/
def encodeVector {T : Type} (items : List T) (encodeFn : T → List Int) : List Int :=
  encodeLEB128U (items.length : Int) ++ items.flatMap encodeFn

/-- The `NumType` enum from `src/main.ts`. -/
inductive NumType
  | i32
  | i64
  | f32
  | f64
deriving DecidableEq

def NumType.toByte : NumType → Int
  | .i32 => 0x7f
  | .i64 => 0x7e
  | .f32 => 0x7d
  | .f64 => 0x7c

/-- The `RefType` enum from `src/main.ts`. -/
inductive RefType
  | funcRef
  | externRef
deriving DecidableEq

def RefType.toByte : RefType → Int
  | .funcRef => 0x70
  | .externRef => 0x6f

/-- `type ValueType = RefType | NumType`. -/
inductive ValueType
  | num (t : NumType)
  | ref (t : RefType)
deriving DecidableEq

def ValueType.toByte : ValueType → Int
  | .num t => t.toByte
  | .ref t => t.toByte

/-- `FuncType` from `src/main.ts`. -/
structure FuncType where
  paramTypes : List ValueType
  returnTypes : List ValueType

/-- `encodeFuncType`: marker byte 0x60, then the parameter-type vector,
then the return-type vector (each element the enum's byte value). -/
def encodeFuncType (funcType : FuncType) : List Int :=
  0x60 :: (encodeVector funcType.paramTypes (fun a => [a.toByte]) ++
    encodeVector funcType.returnTypes (fun a => [a.toByte]))

/-- `encodeSection` from `src/main.ts`: vector-encode the payload, then
prepend the id byte and the payload's byte length. -/
def encodeSection {T : Type} (id : Int) (items : List T)
    (encodeFn : T → List Int) : List Int :=
  let bytes := encodeVector items encodeFn
  id :: (encodeLEB128U (bytes.length : Int) ++ bytes)

def encodeTypeSection (types : List FuncType) : List Int :=
  encodeSection 1 types encodeFuncType

def encodeFuncSection (typeIndicies : List Int) : List Int :=
  encodeSection 3 typeIndicies encodeLEB128U

/-- `Limits` from `src/main.ts`; `max` is an optional field. -/
structure Limits where
  min : Int
  max : Option Int

/-- `encodeLimits` from `src/main.ts`.  The source tests `if (limits.max)`,
a JavaScript truthiness check: it takes the max branch only when `max` is
present AND nonzero (the number `0` is falsy). -/
def encodeLimits (limits : Limits) : List Int :=
  match limits.max with
  | some m =>
      if m = 0 then 0x00 :: encodeLEB128U limits.min
      else 0x01 :: (encodeLEB128U limits.min ++ encodeLEB128U m)
  | none => 0x00 :: encodeLEB128U limits.min

def encodeMemorySection (memories : List Limits) : List Int :=
  encodeSection 5 memories encodeLimits

/-- The `ExportType` enum from `src/main.ts`. -/
inductive ExportType
  | Function
  | Table
  | Memory
  | Global
deriving DecidableEq

def ExportType.toByte : ExportType → Int
  | .Function => 0
  | .Table => 1
  | .Memory => 2
  | .Global => 3

/-- `Export` from `src/main.ts`. -/
structure Export where
  name : String
  type : ExportType
  index : Int

/-- UTF-8 encoding of one code point, the per-character behaviour of the
`TextEncoder().encode` call in `encodeExport`. -/
def utf8Char (c : Char) : List Int :=
  let n : Int := c.toNat
  if n < 128 then [n]
  else if n < 2048 then [192 + n / 64, 128 + n % 64]
  else if n < 65536 then [224 + n / 4096, 128 + (n / 64) % 64, 128 + n % 64]
  else [240 + n / 262144, 128 + (n / 4096) % 64, 128 + (n / 64) % 64, 128 + n % 64]

/-- `new TextEncoder().encode(s)`: the UTF-8 bytes of the string. -/
def utf8Bytes (s : String) : List Int :=
  s.data.flatMap utf8Char

/-- `encodeExport` from `src/main.ts`: length-prefixed UTF-8 name, then
the export-kind byte, then the index. -/
def encodeExport (exportEntry : Export) : List Int :=
  let nameBytes := utf8Bytes exportEntry.name
  encodeLEB128U (nameBytes.length : Int) ++ nameBytes ++
    (exportEntry.type.toByte :: encodeLEB128U exportEntry.index)

def encodeExportSection (exports : List Export) : List Int :=
  encodeSection 7 exports encodeExport

/-- The `Instruction` tagged union from `src/main.ts`; tags carry the
operands their opcode requires, and `If` carries a result type and two
nested instruction sequences. -/
inductive Instruction
  | I32Load (align offset : Int)
  | I32Const (n : Int)
  | I32GtS
  | I32Eq
  | I32Add
  | I32Mul
  | I32DivU
  | LocalGet (n : Int)
  | LocalSet (n : Int)
  | LocalTee (n : Int)
  | Drop
  | BrIf (n : Int)
  | Return
  | Call (n : Int)
  | If (bt : ValueType) (thenBranch elseBranch : List Instruction)

mutual

/-- `encodeInstruction` from `src/main.ts`; opcode byte values are those of
the `InstrType` enum. -/
def encodeInstruction : Instruction → List Int
  | .I32Load align offset =>
      0x28 :: (encodeLEB128U align ++ encodeLEB128U offset)
  | .I32GtS => [0x4a]
  | .I32Eq => [0x46]
  | .I32Add => [0x6a]
  | .I32Mul => [0x6c]
  | .I32DivU => [0x6e]
  | .Return => [0x0f]
  | .Drop => [0x1a]
  | .I32Const n => 0x41 :: encodeLEB128S n
  | .LocalGet n => 0x20 :: encodeLEB128U n
  | .LocalSet n => 0x21 :: encodeLEB128U n
  | .LocalTee n => 0x22 :: encodeLEB128U n
  | .BrIf n => 0x0d :: encodeLEB128U n
  | .Call n => 0x10 :: encodeLEB128U n
  | .If bt thenBranch elseBranch =>
      0x04 :: bt.toByte ::
        (encodeInstrSeq thenBranch ++ 0x05 :: (encodeInstrSeq elseBranch ++ [0x0b]))

/-- `instructions.flatMap(encodeInstruction)`, written as a mutual
recursion so the nested `If` branches recurse structurally. -/
def encodeInstrSeq : List Instruction → List Int
  | [] => []
  | i :: rest => encodeInstruction i ++ encodeInstrSeq rest

end

/-- `FuncBody` from `src/main.ts`. -/
structure FuncBody where
  locals : List (Int × ValueType)
  instructions : List Instruction

/-- `encodeFuncBody` from `src/main.ts`: locals vector, instruction
stream, end opcode 0x0b, all prefixed with the total byte length. -/
def encodeFuncBody (body : FuncBody) : List Int :=
  let encodedBody :=
    encodeVector body.locals (fun p => encodeLEB128U p.1 ++ [p.2.toByte]) ++
      (encodeInstrSeq body.instructions ++ [0x0b])
  encodeLEB128U (encodedBody.length : Int) ++ encodedBody

def encodeCodeSection (bodies : List FuncBody) : List Int :=
  encodeSection 10 bodies encodeFuncBody

def encodePreamble : List Int :=
  [0x00, 0x61, 0x73, 0x6d, 0x01, 0x00, 0x00, 0x00]

/-- The hard-coded demo `FuncBody` passed to `encodeCodeSection` inside
`encodeModule` in `src/main.ts`. -/
def demoFuncBody : FuncBody where
  locals := [(2, .num .i32)]
  instructions := [
    .LocalGet 2,
    .LocalGet 3,
    .I32Add,
    .I32Const 2,
    .I32DivU,
    .LocalTee 4,
    .LocalGet 4,
    .LocalGet 0,
    .I32Add,
    .I32Const 4,
    .I32Mul,
    .I32Load 0 0,
    .LocalTee 5,
    .LocalGet 1,
    .I32Eq,
    .BrIf 0,
    .Drop,
    .I32Const (-1),
    .LocalGet 4,
    .LocalGet 2,
    .I32Eq,
    .BrIf 0,
    .Drop,
    .LocalGet 1,
    .LocalGet 5,
    .I32GtS,
    .If (.num .i32) [
      .LocalGet 0,
      .LocalGet 1,
      .LocalGet 4,
      .LocalGet 3,
      .Call 0
    ] [
      .LocalGet 0,
      .LocalGet 1,
      .LocalGet 2,
      .LocalGet 4,
      .Call 0
    ]
  ]

/-- `encodeModule` from `src/main.ts`.  It takes no input; the module
description is hard-coded.  The final `new Uint8Array([...])` reduces each
element modulo 256 (JavaScript `ToUint8`). -/
def encodeModule : List Int :=
  (encodePreamble ++
    encodeTypeSection [{
      paramTypes := [.num .i32, .num .i32, .num .i32, .num .i32],
      returnTypes := [.num .i32] }] ++
    encodeFuncSection [0] ++
    encodeMemorySection [{ min := 1, max := none }] ++
    encodeExportSection [
      { name := "binarySearch", type := .Function, index := 0 },
      { name := "memory", type := .Memory, index := 0 }] ++
    encodeCodeSection [demoFuncBody]).map (fun b => b % 256)

/-! ## Helper lemmas -/

theorem toInt32_eq_self {n : Int} (h0 : -2147483648 ≤ n) (h1 : n < 2147483648) :
    toInt32 n = n := by
  unfold toInt32; split <;> omega

theorem toInt32_bounds (n : Int) :
    -2147483648 ≤ toInt32 n ∧ toInt32 n < 2147483648 := by
  unfold toInt32; split <;> omega

theorem toInt32_emod (n : Int) : toInt32 n % 4294967296 = n % 4294967296 := by
  unfold toInt32; split <;> omega

theorem encodeLEB128U_ne_nil (n : Int) : encodeLEB128U n ≠ [] := by
  rw [encodeLEB128U]; split <;> simp

theorem encodeLEB128U_of_le (n : Int) (h : n ≤ 127) : encodeLEB128U n = [n] := by
  rw [encodeLEB128U, if_neg (by omega)]

theorem encodeLEB128Sloop_ne_nil (n : Int) : encodeLEB128Sloop n ≠ [] := by
  rw [encodeLEB128Sloop]; split <;> simp

theorem decodeSigned_encodeLEB128Sloop (n : Int) :
    decodeSigned (encodeLEB128Sloop n) = n := by
  induction n using encodeLEB128Sloop.induct with
  | case1 n h =>
    rw [encodeLEB128Sloop, if_pos h]
    unfold decodeSigned
    split <;> omega
  | case2 n h ih =>
    rw [encodeLEB128Sloop, if_neg h]
    cases hE : encodeLEB128Sloop (n / 128) with
    | nil => exact absurd hE (encodeLEB128Sloop_ne_nil _)
    | cons b rest =>
      rw [hE] at ih
      unfold decodeSigned
      omega

theorem encodeInstrSeq_eq_flatMap (l : List Instruction) :
    encodeInstrSeq l = l.flatMap encodeInstruction := by
  induction l with
  | nil => rfl
  | cons i rest ih => simp [encodeInstrSeq, ih]

theorem castLen_eval {T : Type} (l : List T) (len : Int)
    (h1 : ((l.length : Nat) : Int) = len) (h2 : len ≤ 127) :
    encodeLEB128U ((l.length : Nat) : Int) = [len] := by
  rw [h1, encodeLEB128U_of_le _ h2]

theorem utf8Bytes_binarySearch :
    utf8Bytes "binarySearch" = [98, 105, 110, 97, 114, 121, 83, 101, 97, 114, 99, 104] := by
  decide

theorem utf8Bytes_memory :
    utf8Bytes "memory" = [109, 101, 109, 111, 114, 121] := by
  decide

theorem typeSection_eval :
    encodeTypeSection [{
      paramTypes := [.num .i32, .num .i32, .num .i32, .num .i32],
      returnTypes := [.num .i32] }] =
      [1, 9, 1, 96, 4, 127, 127, 127, 127, 1, 127] := by
  simp [encodeTypeSection, encodeSection, encodeVector, encodeFuncType,
    encodeLEB128U, toInt32, ValueType.toByte, NumType.toByte]

theorem funcSection_eval :
    encodeFuncSection [0] = [3, 2, 1, 0] := by
  simp [encodeFuncSection, encodeSection, encodeVector, encodeLEB128U, toInt32]

theorem memorySection_eval :
    encodeMemorySection [{ min := 1, max := none }] = [5, 3, 1, 0, 1] := by
  simp [encodeMemorySection, encodeSection, encodeVector, encodeLimits,
    encodeLEB128U, toInt32]

set_option maxRecDepth 4000 in
set_option maxHeartbeats 2000000 in
theorem exportSection_eval :
    encodeExportSection [
      { name := "binarySearch", type := .Function, index := 0 },
      { name := "memory", type := .Memory, index := 0 }] =
      [7, 25, 2, 12, 98, 105, 110, 97, 114, 121, 83, 101, 97, 114, 99, 104, 0, 0,
        6, 109, 101, 109, 111, 114, 121, 2, 0] := by
  simp [encodeExportSection, encodeSection, encodeVector, encodeExport,
    encodeLEB128U, toInt32, utf8Bytes_binarySearch, utf8Bytes_memory,
    ExportType.toByte]

set_option maxRecDepth 8000 in
theorem demoInstrSeq_eval :
    encodeInstrSeq demoFuncBody.instructions =
      [32, 2, 32, 3, 106, 65, 2, 110, 34, 4, 32, 4,
        32, 0, 106, 65, 4, 108, 40, 0, 0, 34, 5, 32, 1, 70, 13, 0, 26, 65, 127,
        32, 4, 32, 2, 70, 13, 0, 26, 32, 1, 32, 5, 74, 4, 127, 32, 0, 32, 1,
        32, 4, 32, 3, 16, 0, 5, 32, 0, 32, 1, 32, 2, 32, 4, 16, 0, 11] := by
  simp [demoFuncBody, encodeInstrSeq, encodeInstruction, encodeLEB128U,
    encodeLEB128S, encodeLEB128Sloop, toInt32, ValueType.toByte, NumType.toByte]

theorem demoFuncBody_inner_eval :
    encodeVector demoFuncBody.locals (fun p => encodeLEB128U p.1 ++ [p.2.toByte]) ++
      (encodeInstrSeq demoFuncBody.instructions ++ [0x0b]) =
      [1, 2, 127, 32, 2, 32, 3, 106, 65, 2, 110, 34, 4, 32, 4,
        32, 0, 106, 65, 4, 108, 40, 0, 0, 34, 5, 32, 1, 70, 13, 0, 26, 65, 127,
        32, 4, 32, 2, 70, 13, 0, 26, 32, 1, 32, 5, 74, 4, 127, 32, 0, 32, 1,
        32, 4, 32, 3, 16, 0, 5, 32, 0, 32, 1, 32, 2, 32, 4, 16, 0, 11, 11] := by
  rw [demoInstrSeq_eval,
    show demoFuncBody.locals = [((2 : Int), ValueType.num NumType.i32)] from rfl]
  rw [encodeVector, castLen_eval _ 1 (by rfl) (by norm_num)]
  simp only [List.flatMap_cons, List.flatMap_nil]
  rw [encodeLEB128U_of_le _ (by norm_num)]
  rfl

theorem demoFuncBody_eval :
    encodeFuncBody demoFuncBody =
      [72, 1, 2, 127, 32, 2, 32, 3, 106, 65, 2, 110, 34, 4, 32, 4,
        32, 0, 106, 65, 4, 108, 40, 0, 0, 34, 5, 32, 1, 70, 13, 0, 26, 65, 127,
        32, 4, 32, 2, 70, 13, 0, 26, 32, 1, 32, 5, 74, 4, 127, 32, 0, 32, 1,
        32, 4, 32, 3, 16, 0, 5, 32, 0, 32, 1, 32, 2, 32, 4, 16, 0, 11, 11] := by
  rw [encodeFuncBody]
  simp only [demoFuncBody_inner_eval]
  rw [castLen_eval _ 72 (by rfl) (by norm_num)]
  rfl

theorem codeSection_eval :
    encodeCodeSection [demoFuncBody] =
      [10, 74, 1, 72, 1, 2, 127, 32, 2, 32, 3, 106, 65, 2, 110, 34, 4, 32, 4,
        32, 0, 106, 65, 4, 108, 40, 0, 0, 34, 5, 32, 1, 70, 13, 0, 26, 65, 127,
        32, 4, 32, 2, 70, 13, 0, 26, 32, 1, 32, 5, 74, 4, 127, 32, 0, 32, 1,
        32, 4, 32, 3, 16, 0, 5, 32, 0, 32, 1, 32, 2, 32, 4, 16, 0, 11, 11] := by
  have hv : encodeVector [demoFuncBody] encodeFuncBody =
      [1, 72, 1, 2, 127, 32, 2, 32, 3, 106, 65, 2, 110, 34, 4, 32, 4,
        32, 0, 106, 65, 4, 108, 40, 0, 0, 34, 5, 32, 1, 70, 13, 0, 26, 65, 127,
        32, 4, 32, 2, 70, 13, 0, 26, 32, 1, 32, 5, 74, 4, 127, 32, 0, 32, 1,
        32, 4, 32, 3, 16, 0, 5, 32, 0, 32, 1, 32, 2, 32, 4, 16, 0, 11, 11] := by
    rw [encodeVector]
    simp only [List.flatMap_cons, List.flatMap_nil, demoFuncBody_eval, List.append_nil]
    rw [castLen_eval _ 1 (by rfl) (by norm_num)]
    rfl
  rw [encodeCodeSection, encodeSection, hv]
  rw [castLen_eval _ 74 (by rfl) (by norm_num)]
  rfl

theorem encodeModule_bytes :
    encodeModule = [0, 97, 115, 109, 1, 0, 0, 0,
      1, 9, 1, 96, 4, 127, 127, 127, 127, 1, 127,
      3, 2, 1, 0,
      5, 3, 1, 0, 1,
      7, 25, 2, 12, 98, 105, 110, 97, 114, 121, 83, 101, 97, 114, 99, 104, 0, 0,
        6, 109, 101, 109, 111, 114, 121, 2, 0,
      10, 74, 1, 72, 1, 2, 127, 32, 2, 32, 3, 106, 65, 2, 110, 34, 4, 32, 4,
        32, 0, 106, 65, 4, 108, 40, 0, 0, 34, 5, 32, 1, 70, 13, 0, 26, 65, 127,
        32, 4, 32, 2, 70, 13, 0, 26, 32, 1, 32, 5, 74, 4, 127, 32, 0, 32, 1,
        32, 4, 32, 3, 16, 0, 5, 32, 0, 32, 1, 32, 2, 32, 4, 16, 0, 11, 11] := by
  rw [encodeModule, typeSection_eval, funcSection_eval, memorySection_eval,
    exportSection_eval, codeSection_eval]
  rfl

/-! ## Claim theorems -/

/-- C1 (amended): for every non-negative integer below `2^31`, decoding
`encodeLEB128U n` with the reference unsigned-LEB128 decoder yields `n`,
and every byte except the last has the continuation bit (0x80) set while
the last has it clear.  (The claim's original `2^32` bound fails: the
encoder uses signed 32-bit shifts.) -/
theorem decodeUnsigned_encodeLEB128U (n : Int) (h0 : 0 ≤ n)
    (h1 : n < 2147483648) :
    decodeUnsigned (encodeLEB128U n) = n ∧ ulebShape (encodeLEB128U n) = true := by
  induction n using encodeLEB128U.induct with
  | case1 n h ih =>
    have ht : toInt32 n = n := toInt32_eq_self (by omega) h1
    rw [encodeLEB128U, if_pos h, ht]
    have ih2 := ih (by omega) (by omega)
    rw [ht] at ih2
    cases hE : encodeLEB128U (n / 128) with
    | nil => exact absurd hE (encodeLEB128U_ne_nil _)
    | cons b rest =>
      rw [hE] at ih2
      unfold decodeUnsigned ulebShape
      rcases ih2 with ⟨ihd, ihs⟩
      constructor
      · omega
      · cases rest with
        | nil =>
          simp only [Bool.and_eq_true, decide_eq_true_eq] at ihs ⊢
          exact ⟨by omega, ihs⟩
        | cons c rest2 =>
          simp only [Bool.and_eq_true, decide_eq_true_eq] at ihs ⊢
          exact ⟨by omega, ihs⟩
  | case2 n h =>
    rw [encodeLEB128U, if_neg h]
    simp only [decodeUnsigned, ulebShape, decide_eq_true_eq]
    omega

/-- C1 witness: the round-trip and byte-shape property at `n = 300`. -/
theorem decodeUnsigned_encodeLEB128U_witness :
    decodeUnsigned (encodeLEB128U 300) = 300 ∧ ulebShape (encodeLEB128U 300) = true :=
  decodeUnsigned_encodeLEB128U 300 (by norm_num) (by norm_num)

/-- C1 counterexample: at `n = 2^31` (inside the claimed `0 ≤ n < 2^32`
range) the claim fails: `encodeLEB128U 2147483648 = [128, -16777216]`,
which decodes to `0` and is not a continuation-bit-correct byte string. -/
theorem encodeLEB128U_wraps_at_2pow31 :
    ¬(decodeUnsigned (encodeLEB128U 2147483648) = 2147483648 ∧
      ulebShape (encodeLEB128U 2147483648) = true) := by
  have h : encodeLEB128U 2147483648 = [128, -16777216] := by
    simp [encodeLEB128U, toInt32]
  rw [h]
  decide

/-- C2: the four concrete signed-LEB128 equalities from the spec hold,
and for every signed 32-bit integer the reference signed-LEB128 decoder
recovers the input from `encodeLEB128S`. -/
theorem encodeLEB128S_roundtrip_spec :
    encodeLEB128S 0 = [0x00] ∧ encodeLEB128S (-1) = [0x7f] ∧
    encodeLEB128S 64 = [0xc0, 0x00] ∧ encodeLEB128S (-123) = [0x85, 0x7f] ∧
    ∀ n : Int, -2147483648 ≤ n → n < 2147483648 →
      decodeSigned (encodeLEB128S n) = n := by
  refine ⟨?_, ?_, ?_, ?_, ?_⟩
  · simp [encodeLEB128S, encodeLEB128Sloop, toInt32]
  · simp [encodeLEB128S, encodeLEB128Sloop, toInt32]
  · simp [encodeLEB128S, encodeLEB128Sloop, toInt32]
  · simp [encodeLEB128S, encodeLEB128Sloop, toInt32]
  · intro n hn0 hn1
    rw [encodeLEB128S, toInt32_eq_self hn0 hn1]
    exact decodeSigned_encodeLEB128Sloop n

/-- C2 witness: the signed round-trip at `n = -123`. -/
theorem encodeLEB128S_roundtrip_spec_witness :
    decodeSigned (encodeLEB128S (-123)) = -123 :=
  encodeLEB128S_roundtrip_spec.2.2.2.2 (-123) (by norm_num) (by norm_num)

/-- C3 (amended): `encodeLEB128U` (on the JavaScript-number domain) fails
exactly when its argument is not an integer; negative integers are NOT
rejected — the guard is `Number.isInteger`, which does not test the
sign. -/
theorem encodeLEB128Unum_ok_iff (q : ℚ) :
    (∃ bs, encodeLEB128Unum q = Except.ok bs) ↔ q.den = 1 := by
  rw [encodeLEB128Unum]
  split <;> simp_all

/-- C3 witness: integer input `5` succeeds; fractional input `1/2`
fails. -/
theorem encodeLEB128Unum_ok_iff_witness :
    (∃ bs, encodeLEB128Unum (5 : ℚ) = Except.ok bs) ∧
      ¬(∃ bs, encodeLEB128Unum (Rat.mk' 1 2) = Except.ok bs) := by
  constructor
  · exact (encodeLEB128Unum_ok_iff 5).mpr (by decide)
  · intro h
    have hd := (encodeLEB128Unum_ok_iff (Rat.mk' 1 2)).mp h
    revert hd
    decide

/-- C3 counterexample: the negative integer `-1` returns normally (with
the nonsensical "byte" `-1`) instead of raising an error, so the claim
"fails on every negative integer input" is false. -/
theorem encodeLEB128Unum_accepts_neg :
    encodeLEB128Unum (-1 : ℚ) = Except.ok [-1] := by
  rw [encodeLEB128Unum, if_pos (by decide)]
  rw [show ((-1 : ℚ).num) = -1 from by decide]
  rw [encodeLEB128U_of_le _ (by norm_num)]

/-- C4 (amended): for every element encoder `f`,
`encodeSection 1 [] f = [0x01, 0x01, 0x00]`: the payload is the one-byte
vector of zero elements `[0x00]`, so the section's length prefix is
`0x01`, not `0x00` as the claim states. -/
theorem encodeSection_empty_eval {T : Type} (f : T → List Int) :
    encodeSection 1 [] f = [1, 1, 0] := by
  simp [encodeSection, encodeVector, encodeLEB128U_of_le]

/-- C4 witness: the amended equality at a concrete element encoder. -/
theorem encodeSection_empty_eval_witness :
    encodeSection 1 ([] : List Nat) (fun n => [(n : Int)]) = [1, 1, 0] :=
  encodeSection_empty_eval (fun n => [(n : Int)])

/-- C4 counterexample: at the concrete encoder `fun t => [t]`,
`encodeSection 1 [] f` is `[1, 1, 0]`, not the claimed `[0x01, 0x00]`. -/
theorem encodeSection_empty_ne_claim :
    encodeSection 1 ([] : List Int) (fun t => [t]) ≠ [1, 0] := by
  have h : encodeSection 1 ([] : List Int) (fun t => [t]) = [1, 1, 0] := by
    simp [encodeSection, encodeVector, encodeLEB128U_of_le]
  rw [h]
  decide

/-- C5 (amended): `encodeLimits` emits flag byte 1 followed by
`encodeLEB128U min` and `encodeLEB128U max` only when the maximum is
present AND nonzero; a present maximum of `0` is falsy in the source's
`if (limits.max)` test and is encoded exactly like an absent maximum,
with flag byte 0. -/
theorem encodeLimits_spec (l : Limits) :
    encodeLimits l =
      (if l.max.getD 0 = 0 then 0x00 :: encodeLEB128U l.min
       else 0x01 :: (encodeLEB128U l.min ++ encodeLEB128U (l.max.getD 0))) := by
  rcases l with ⟨mn, mx⟩
  cases mx with
  | none => simp [encodeLimits]
  | some m =>
    by_cases hm : m = 0 <;> simp [encodeLimits, hm]

/-- C5 witness: a present nonzero maximum gets flag byte 1. -/
theorem encodeLimits_spec_witness :
    encodeLimits { min := 1, max := some 3 } = [1, 1, 3] := by
  rw [encodeLimits_spec]
  simp [encodeLEB128U_of_le]

/-- C5 counterexample: a `Limits` with a present maximum of `0` is
encoded with flag byte 0 (as if the maximum were absent), contradicting
the claim that a present maximum always yields flag byte 1. -/
theorem encodeLimits_zero_max_flag :
    encodeLimits { min := 1, max := some 0 } = [0, 1] ∧
    encodeLimits { min := 1, max := some 0 } ≠
      0x01 :: (encodeLEB128U 1 ++ encodeLEB128U 0) := by
  have h : encodeLimits { min := 1, max := some 0 } = [0, 1] := by
    simp [encodeLimits, encodeLEB128U_of_le]
  refine ⟨h, ?_⟩
  rw [h, encodeLEB128U_of_le 1 (by norm_num), encodeLEB128U_of_le 0 (by norm_num)]
  decide

/-- C6: for every section id, item list and element encoder,
`encodeSection id items f` is the id byte, then `encodeLEB128U` of the
byte length of the vector-encoded payload `encodeVector items f`, then
that payload — the length prefix counts only payload bytes. -/
theorem encodeSection_spec {T : Type} (id : Int) (items : List T)
    (f : T → List Int) :
    encodeSection id items f =
      id :: (encodeLEB128U ((encodeVector items f).length : Int) ++
        encodeVector items f) :=
  rfl

/-- C6 witness: the section layout at the concrete function-section
instance used by the module (id 3, items `[0]`, encoder
`encodeLEB128U`), fully evaluated. -/
theorem encodeSection_spec_witness :
    encodeSection 3 [(0 : Int)] encodeLEB128U = [3, 2, 1, 0] ∧
      encodeVector [(0 : Int)] encodeLEB128U = [1, 0] := by
  have hv : encodeVector [(0 : Int)] encodeLEB128U = [1, 0] := by
    simp [encodeVector, encodeLEB128U_of_le]
  refine ⟨?_, hv⟩
  rw [encodeSection_spec, hv]
  rw [show (([(1 : Int), 0].length : Nat) : Int) = 2 from rfl]
  rw [encodeLEB128U_of_le _ (by norm_num)]
  rfl

/-- C7: an `If` instruction encodes as the If opcode byte (0x04), the
result-type byte, the concatenated recursive encodings of the then-branch
in order, the else marker 0x05, the concatenated recursive encodings of
the else-branch in order, and the end marker 0x0b — so markers pair
correctly at each nesting depth. -/
theorem encodeInstruction_If_spec (bt : ValueType)
    (thenBranch elseBranch : List Instruction) :
    encodeInstruction (.If bt thenBranch elseBranch) =
      0x04 :: bt.toByte ::
        (thenBranch.flatMap encodeInstruction ++
          0x05 :: (elseBranch.flatMap encodeInstruction ++ [0x0b])) := by
  simp only [encodeInstruction, encodeInstrSeq_eq_flatMap]

/-- C7 witness: a conditional nested inside a conditional encodes with
correctly paired 0x05/0x0b markers at both depths. -/
theorem encodeInstruction_If_spec_witness :
    encodeInstruction
        (.If (.num .i32) [.If (.num .i32) [.Drop] [.Return]] [.I32Add]) =
      [4, 127, 4, 127, 26, 5, 15, 11, 5, 106, 11] := by
  rw [encodeInstruction_If_spec]
  simp only [List.flatMap_cons, List.flatMap_nil]
  rw [encodeInstruction_If_spec]
  simp [encodeInstruction, ValueType.toByte, NumType.toByte]

/-- C8: `encodeModule` is the fixed 8-byte preamble (4-byte magic, 4-byte
version) followed by the five present sections' encodings concatenated in
ascending id order: type (1), function (3), memory (5), export (7),
code (10). -/
theorem encodeModule_structure :
    encodeModule =
      encodePreamble ++
        (encodeTypeSection [{
          paramTypes := [.num .i32, .num .i32, .num .i32, .num .i32],
          returnTypes := [.num .i32] }] ++
        (encodeFuncSection [0] ++
        (encodeMemorySection [{ min := 1, max := none }] ++
        (encodeExportSection [
          { name := "binarySearch", type := .Function, index := 0 },
          { name := "memory", type := .Memory, index := 0 }] ++
        encodeCodeSection [demoFuncBody])))) ∧
    encodePreamble = [0x00, 0x61, 0x73, 0x6d] ++ [0x01, 0x00, 0x00, 0x00] ∧
    (encodeTypeSection [{
      paramTypes := [.num .i32, .num .i32, .num .i32, .num .i32],
      returnTypes := [.num .i32] }]).head? = some 1 ∧
    (encodeFuncSection [0]).head? = some 3 ∧
    (encodeMemorySection [{ min := 1, max := none }]).head? = some 5 ∧
    (encodeExportSection [
      { name := "binarySearch", type := .Function, index := 0 },
      { name := "memory", type := .Memory, index := 0 }]).head? = some 7 ∧
    (encodeCodeSection [demoFuncBody]).head? = some 10 := by
  refine ⟨?_, rfl, ?_, ?_, ?_, ?_, ?_⟩
  · rw [encodeModule_bytes, typeSection_eval, funcSection_eval,
      memorySection_eval, exportSection_eval, codeSection_eval]
    rfl
  · rw [typeSection_eval]; rfl
  · rw [funcSection_eval]; rfl
  · rw [memorySection_eval]; rfl
  · rw [exportSection_eval]; rfl
  · rw [codeSection_eval]; rfl

/-- C9: `encodeLEB128S` truncates its argument to signed 32 bits before
encoding: `encodeLEB128S n = encodeLEB128S (toInt32 n)`, where `toInt32 n`
is the unique signed-32-bit value congruent to `n` modulo `2^32`; inputs
outside the 32-bit range do not fail. -/
theorem encodeLEB128S_truncates (n : Int) :
    encodeLEB128S n = encodeLEB128S (toInt32 n) ∧
    -2147483648 ≤ toInt32 n ∧ toInt32 n < 2147483648 ∧
    toInt32 n % 4294967296 = n % 4294967296 := by
  refine ⟨?_, (toInt32_bounds n).1, (toInt32_bounds n).2, toInt32_emod n⟩
  rw [encodeLEB128S, encodeLEB128S,
    toInt32_eq_self (toInt32_bounds n).1 (toInt32_bounds n).2]

/-- C9 witness: `2^32 + 5` encodes exactly like its 32-bit truncation
`5`. -/
theorem encodeLEB128S_truncates_witness :
    encodeLEB128S 4294967301 = encodeLEB128S 5 := by
  have h := (encodeLEB128S_truncates 4294967301).1
  rwa [show toInt32 4294967301 = 5 from by decide] at h

/-- C10: `encodeModule` takes no input and always returns this fixed
131-byte sequence — the hard-coded binary-search demo module. -/
theorem encodeModule_constant :
    encodeModule = [0, 97, 115, 109, 1, 0, 0, 0,
      1, 9, 1, 96, 4, 127, 127, 127, 127, 1, 127,
      3, 2, 1, 0,
      5, 3, 1, 0, 1,
      7, 25, 2, 12, 98, 105, 110, 97, 114, 121, 83, 101, 97, 114, 99, 104, 0, 0,
        6, 109, 101, 109, 111, 114, 121, 2, 0,
      10, 74, 1, 72, 1, 2, 127, 32, 2, 32, 3, 106, 65, 2, 110, 34, 4, 32, 4,
        32, 0, 106, 65, 4, 108, 40, 0, 0, 34, 5, 32, 1, 70, 13, 0, 26, 65, 127,
        32, 4, 32, 2, 70, 13, 0, 26, 32, 1, 32, 5, 74, 4, 127, 32, 0, 32, 1,
        32, 4, 32, 3, 16, 0, 5, 32, 0, 32, 1, 32, 2, 32, 4, 16, 0, 11, 11] :=
  encodeModule_bytes
